import Mathlib

/-!
# Verification of the polymer-NLP span-integrity pipeline

A shallow embedding of the document-to-window packer and the ensemble
span-reconciliation engine of `polymer_nlp_extractor`, together with proofs
of the specified integrity properties.

The repository snapshot ships only the design notes, the project layout and
the notebook driver; the service modules themselves
(`tei_processing.py`, `token_packing.py`, `ensemble_inference.py`,
`setup_service.py`) are not in the snapshot.  Every operation below is
therefore modelled from the specification text, with confidences and
reliability weights represented on an integer (permille) scale so that all
definitions are executable and decidable.
-/

namespace PolymerNLP

/-- A character buffer: the cleaned source text of one document. -/
abbrev Buffer := List Char

/-- The substring of `buf` between character offsets `s` (inclusive) and
`e` (exclusive) — the `source_text[char_start:char_end]` operation. -/
def sliceL (buf : Buffer) (s e : Nat) : Buffer :=
  (buf.drop s).take (e - s)

/-- The six entity labels of the data model.  The constructor order is the
lexicographic order of the label names, which the reconciler uses as its
final deterministic tie-break. -/
inductive EntityLabel where
  | Material
  | Polymer
  | Property
  | Symbol
  | Unit
  | Value
deriving DecidableEq, Repr

/-- All entity labels, in lexicographic order of their names. -/
def allLabels : List EntityLabel :=
  [.Material, .Polymer, .Property, .Symbol, .Unit, .Value]

/-- Numeric index of a label (its position in lexicographic order). -/
def labelIdx : EntityLabel → Nat
  | .Material => 0
  | .Polymer => 1
  | .Property => 2
  | .Symbol => 3
  | .Unit => 4
  | .Value => 5

/-! ## Cleaning (Sentence Segmenter stage, part 1)

Modelled from the spec: `tei_processing.py`'s cleaning pass
(whitespace normalization and the OCR-artifact regexes quoted in the
design notes: spaces removed between digits, spaces removed before
punctuation).  All of these run before any offset is assigned. -/

/-- Modelled from the spec: collapse runs of spaces into a single space
(whitespace normalization of the missing `tei_processing.py`). -/
def collapseSpaces : Buffer → Buffer
  | [] => []
  | [c] => [c]
  | c1 :: c2 :: rest =>
    if c1 = ' ' && c2 = ' ' then collapseSpaces (c2 :: rest)
    else c1 :: collapseSpaces (c2 :: rest)

/-- Modelled from the spec: the OCR fix that deletes a space standing
between two digits (the missing `fix_ocr_artifacts`). -/
def fixDigitSpaces : Buffer → Buffer
  | c1 :: ' ' :: c3 :: rest =>
    if c1.isDigit && c3.isDigit then c1 :: fixDigitSpaces (c3 :: rest)
    else c1 :: fixDigitSpaces (' ' :: c3 :: rest)
  | c :: rest => c :: fixDigitSpaces rest
  | [] => []

/-- Modelled from the spec: the OCR fix that deletes a space standing
before closing punctuation (the missing `fix_ocr_artifacts`). -/
def fixSpacePunct : Buffer → Buffer
  | ' ' :: c :: rest =>
    if c = ',' || c = '.' || c = ';' || c = ':' then fixSpacePunct (c :: rest)
    else ' ' :: fixSpacePunct (c :: rest)
  | c :: rest => c :: fixSpacePunct rest
  | [] => []

/-- Modelled from the spec: the full cleaning pass of the missing
`tei_processing.py`.  Every length-changing transformation is applied
here, before sentence offsets are assigned. -/
def cleanText (b : Buffer) : Buffer :=
  fixSpacePunct (fixDigitSpaces (collapseSpaces b))

/-! ## Sentence Segmenter & Offset Tracker -/

/-- A `Sentence` record: its text together with its exact character range
in the cleaned source buffer.  (Structural metadata — section name and
content type — is not needed by any verified property and is omitted.) -/
structure Sentence where
  text : Buffer
  char_start : Nat
  char_end : Nat
  sentence_id : Nat
deriving DecidableEq, Repr

/-- Modelled from the spec: sentence segmentation of the missing
`tei_processing.py`.  Splits the cleaned buffer at full stops while
tracking the exact character offset of every sentence.  `rem` is the
unconsumed suffix of the buffer, `pos` the offset of its first character,
`cur` the (reversed) text accumulated for the open sentence, `cs` the
offset where the open sentence began and `sid` the next sentence id. -/
def segmentAux : Buffer → Nat → Buffer → Nat → Nat → List Sentence
  | [], _, [], _, _ => []
  | [], pos, cur, cs, sid => [⟨cur.reverse, cs, pos, sid⟩]
  | c :: rest, pos, cur, cs, sid =>
    if c = '.' then
      ⟨(c :: cur).reverse, cs, pos + 1, sid⟩ ::
        segmentAux rest (pos + 1) [] (pos + 1) (sid + 1)
    else
      segmentAux rest (pos + 1) (c :: cur) cs sid

/-- Segment a cleaned buffer into offset-tracked sentences. -/
def segmentSentences (buf : Buffer) : List Sentence :=
  segmentAux buf 0 [] 0 0

/-- Modelled from the spec: the plausibility filter — sentences below a
minimum character length are dropped before windowing. -/
def readySentences (buf : Buffer) (minChars : Nat) : List Sentence :=
  (segmentSentences buf).filter (fun s => minChars ≤ s.text.length)

/-! ### Slice lemmas -/

theorem sliceL_nil_of_ge (buf : Buffer) (s e : Nat) (h : e ≤ s) :
    sliceL buf s e = [] := by
  simp [sliceL, Nat.sub_eq_zero_of_le h]

theorem sliceL_extend (buf : Buffer) (cs pos : Nat) (c : Char) (rest : Buffer)
    (hdrop : buf.drop pos = c :: rest) (hle : cs ≤ pos) :
    sliceL buf cs (pos + 1) = sliceL buf cs pos ++ [c] := by
  have hget : buf[pos]? = some c := by
    have h0 : (buf.drop pos)[0]? = buf[pos + 0]? := List.getElem?_drop buf pos 0
    simpa [hdrop] using h0.symm
  have hgd : (buf.drop cs)[pos - cs]? = some c := by
    have := List.getElem?_drop buf cs (pos - cs)
    rw [this, Nat.add_sub_cancel' hle, hget]
  have hsub : pos + 1 - cs = (pos - cs) + 1 := by omega
  rw [sliceL, hsub, List.take_succ, hgd]
  simp [sliceL]

/-- Offset correctness of the segmenter: every emitted sentence's recorded
character range indexes the buffer exactly, and the range length equals
the text length. -/
theorem segmentAux_spec (buf : Buffer) :
    ∀ (rem : Buffer) (pos : Nat) (cur : Buffer) (cs sid : Nat),
      buf.drop pos = rem → cur.reverse = sliceL buf cs pos → cs + cur.length = pos →
      ∀ s ∈ segmentAux rem pos cur cs sid,
        s.char_end - s.char_start = s.text.length ∧
        sliceL buf s.char_start s.char_end = s.text := by
  intro rem
  induction rem with
  | nil =>
    intro pos cur cs sid _ hcur hlen s hs
    match cur, hs with
    | c :: cur', hs =>
      simp only [segmentAux, List.mem_singleton] at hs
      subst hs
      refine ⟨?_, hcur.symm⟩
      simp only [List.length_cons, List.length_reverse] at hlen ⊢
      omega
  | cons c rest ih =>
    intro pos cur cs sid hrem hcur hlen s hs
    have hle : cs ≤ pos := by omega
    have hdrop1 : buf.drop (pos + 1) = rest := by
      have h1 := List.drop_drop 1 pos buf
      rw [hrem] at h1
      simpa using h1.symm
    have hext : sliceL buf cs (pos + 1) = sliceL buf cs pos ++ [c] :=
      sliceL_extend buf cs pos c rest hrem hle
    by_cases hc : c = '.'
    · simp only [segmentAux, if_pos hc, List.mem_cons] at hs
      rcases hs with hs | hs
      · subst hs
        constructor
        · simp only
          have : (c :: cur).reverse.length = cur.length + 1 := by simp
          omega
        · simp only
          rw [hext, ← hcur, List.reverse_cons]
      · exact ih (pos + 1) [] (pos + 1) (sid + 1) hdrop1
          (by simp [sliceL_nil_of_ge]) (by simp) s hs
    · simp only [segmentAux, if_neg hc] at hs
      exact ih (pos + 1) (c :: cur) cs sid hdrop1
        (by rw [List.reverse_cons, hcur, hext]) (by simp; omega) s hs

/-! ## Window Packer -/

/-- A token window.  `sentences` are the sentences the window *owns* (the
authoritative copy used for offset resolution); `overlap_with_prev` are the
trailing sentences duplicated from the previous window for boundary
recovery; `oversized` flags a window holding a single sentence that alone
exceeds the capacity. -/
structure Window where
  window_id : Nat
  sentences : List Sentence
  overlap_with_prev : List Sentence
  oversized : Bool
deriving DecidableEq, Repr

/-- Modelled from the spec: the greedy grouping loop of the missing
`token_packing.py`.  Whole sentences are accumulated into the current
group (`cur`, reversed; `used` tokens so far) until adding the next one
would exceed the capacity; a sentence that alone exceeds the capacity is
closed off as its own group flagged oversized, never truncated. -/
def packGroups (cap : Nat) (tl : Sentence → Nat) :
    List Sentence → List Sentence → Nat → List (List Sentence × Bool)
  | [], [], _ => []
  | [], cur, _ => [(cur.reverse, false)]
  | s :: rest, cur, used =>
    if cap < tl s then
      if cur = [] then ([s], true) :: packGroups cap tl rest [] 0
      else (cur.reverse, false) :: ([s], true) :: packGroups cap tl rest [] 0
    else if used + tl s ≤ cap then
      packGroups cap tl rest (s :: cur) (used + tl s)
    else
      (cur.reverse, false) :: packGroups cap tl rest [s] (tl s)

/-- The last `k` elements of a list (the configured overlap seed). -/
def lastN (k : Nat) (l : List Sentence) : List Sentence :=
  l.drop (l.length - k)

/-- Number the groups and attach the overlap duplicated from the previous
window (`prev` is the previous group's owned sentence list). -/
def mkWindows (k : Nat) : Nat → List Sentence → List (List Sentence × Bool) → List Window
  | _, _, [] => []
  | i, prev, g :: gs => ⟨i, g.1, lastN k prev, g.2⟩ :: mkWindows k (i + 1) g.1 gs

/-- Modelled from the spec: the missing `token_packing.py` — pack ordered
sentences into fixed-capacity windows, never splitting a sentence, with
`k` trailing sentences duplicated into the next window as overlap. -/
def token_packing (cap k : Nat) (tl : Sentence → Nat) (sents : List Sentence) :
    List Window :=
  mkWindows k 0 [] (packGroups cap tl sents [] 0)

/-! ### Packer lemmas -/

theorem packGroups_join (cap : Nat) (tl : Sentence → Nat) :
    ∀ (l cur : List Sentence) (used : Nat),
      ((packGroups cap tl l cur used).map Prod.fst).flatten = cur.reverse ++ l := by
  intro l
  induction l with
  | nil => intro cur used; cases cur <;> simp [packGroups]
  | cons s rest ih =>
    intro cur used
    by_cases h1 : cap < tl s
    · by_cases h2 : cur = []
      · subst h2; simp [packGroups, h1, ih]
      · simp [packGroups, h1, h2, ih]
    · by_cases h2 : used + tl s ≤ cap
      · simp [packGroups, h1, h2, ih]
      · simp [packGroups, h1, h2, ih]

theorem packGroups_oversized (cap : Nat) (tl : Sentence → Nat) :
    ∀ (l cur : List Sentence) (used : Nat) (s : Sentence),
      s ∈ l → cap < tl s → ([s], true) ∈ packGroups cap tl l cur used := by
  intro l
  induction l with
  | nil => intro cur used s hs; exact absurd hs (List.not_mem_nil s)
  | cons a rest ih =>
    intro cur used s hs hbig
    rcases List.mem_cons.mp hs with h | h
    · subst h
      by_cases h2 : cur = [] <;> simp [packGroups, hbig, h2]
    · by_cases h1 : cap < tl a
      · by_cases h2 : cur = [] <;>
          simp [packGroups, h1, h2, ih [] 0 s h hbig]
      · by_cases h2 : used + tl a ≤ cap
        · simpa [packGroups, h1, h2] using ih (a :: cur) (used + tl a) s h hbig
        · simp [packGroups, h1, h2, ih [a] (tl a) s h hbig]

theorem mkWindows_sentences (k : Nat) :
    ∀ (gs : List (List Sentence × Bool)) (i : Nat) (prev : List Sentence),
      (mkWindows k i prev gs).map Window.sentences = gs.map Prod.fst := by
  intro gs
  induction gs with
  | nil => intro i prev; rfl
  | cons g gs ih => intro i prev; simp [mkWindows, ih]

theorem mkWindows_oversized (k : Nat) :
    ∀ (gs : List (List Sentence × Bool)) (i : Nat) (prev : List Sentence)
      (s : Sentence), ([s], true) ∈ gs →
      ∃ w ∈ mkWindows k i prev gs, w.sentences = [s] ∧ w.oversized = true := by
  intro gs
  induction gs with
  | nil => intro i prev s hs; exact absurd hs (List.not_mem_nil _)
  | cons g gs ih =>
    intro i prev s hs
    rcases List.mem_cons.mp hs with h | h
    · exact ⟨⟨i, g.1, lastN k prev, g.2⟩, List.mem_cons_self _ _,
        by rw [← h], by rw [← h]⟩
    · obtain ⟨w, hw, hw1, hw2⟩ := ih (i + 1) g.1 s h
      exact ⟨w, List.mem_cons_of_mem _ hw, hw1, hw2⟩

/-! ## Tokenization and offset maps

Modelled from the spec: word-level tokenization standing for the target
subword tokenizer; each window's offset map sends a token index to the
exact `(char_start, char_end)` range of that token in the cleaned buffer,
and is the single source of truth for converting token-space predictions
back to characters. -/

/-- Split a text into word tokens with exact character ranges.  `pos` is
the offset of the next character; `cur` is the start offset of the open
token, if one is open. -/
def wordRunsAux : Buffer → Nat → Option Nat → List (Nat × Nat)
  | [], _, none => []
  | [], pos, some st => [(st, pos)]
  | ch :: rest, pos, none =>
    if ch = ' ' then wordRunsAux rest (pos + 1) none
    else wordRunsAux rest (pos + 1) (some pos)
  | ch :: rest, pos, some st =>
    if ch = ' ' then (st, pos) :: wordRunsAux rest (pos + 1) none
    else wordRunsAux rest (pos + 1) (some st)

/-- Token ranges of a text whose first character sits at offset `base`. -/
def wordRuns (base : Nat) (text : Buffer) : List (Nat × Nat) :=
  wordRunsAux text base none

/-- Token length of a sentence (the packer's capacity measure). -/
def tokenLenOf (s : Sentence) : Nat :=
  (wordRuns s.char_start s.text).length

/-- The window's offset map: token index → character range, concatenated
over the window's owned sentences. -/
def windowOffsetMap (w : Window) : List (Nat × Nat) :=
  (w.sentences.map (fun s => wordRuns s.char_start s.text)).flatten

/-! ## Multi-Model Tagger Adapter -/

/-- Model identities are numeric in this embedding. -/
abbrev ModelId := Nat

/-- Static per-model configuration: identity and reliability weight
(permille scale). -/
structure TaggerConfig where
  model_id : ModelId
  weight : Nat
deriving DecidableEq, Repr

/-- A raw span candidate produced by one model on one window.  Confidence
is on a permille scale (0–1000 standing for 0.0–1.0). -/
structure RawSpanCandidate where
  model_id : ModelId
  label : EntityLabel
  char_start : Nat
  char_end : Nat
  confidence : Nat
  window_id : Nat
deriving DecidableEq, Repr

/-- Close the open run, if any, into a candidate whose confidence is the
mean of the per-token confidences. -/
def flushRun (m : ModelId) (wid : Nat) :
    Option (EntityLabel × Nat × Nat × List Nat) → List RawSpanCandidate
  | none => []
  | some (l, s, e, confs) => [⟨m, l, s, e, confs.sum / confs.length, wid⟩]

/-- Modelled from the spec: convert per-token `(label?, confidence)` output
zipped with the offset map into candidates, one per contiguous run of a
non-background label; char spans come exclusively from the offset map. -/
def runsAux (m : ModelId) (wid : Nat) :
    Option (EntityLabel × Nat × Nat × List Nat) →
    List ((Option EntityLabel × Nat) × (Nat × Nat)) → List RawSpanCandidate
  | cur, [] => flushRun m wid cur
  | cur, ((olbl, conf), (cs, ce)) :: rest =>
    match olbl, cur with
    | none, _ => flushRun m wid cur ++ runsAux m wid none rest
    | some l, some (lp, s, _, confs) =>
      if l = lp then runsAux m wid (some (lp, s, ce, conf :: confs)) rest
      else flushRun m wid (some (lp, s, ce, confs)) ++
        runsAux m wid (some (l, cs, ce, [conf])) rest
    | some l, none => runsAux m wid (some (l, cs, ce, [conf])) rest

/-- Modelled from the spec: the Multi-Model Tagger Adapter for one model
on one window. -/
def adaptTagger (m : TaggerConfig) (w : Window)
    (out : List (Option EntityLabel × Nat)) : List RawSpanCandidate :=
  runsAux m.model_id w.window_id none (out.zip (windowOffsetMap w))

/-- A configured tagger: its configuration plus its invocation function;
`none` models a `TaggerInvocationError` on that window. -/
abbrev Tagger := TaggerConfig × (Window → Option (List (Option EntityLabel × Nat)))

/-- All candidates gathered for one window; a model that failed on this
window contributes nothing. -/
def windowCandidates (taggers : List Tagger) (w : Window) : List RawSpanCandidate :=
  (taggers.map (fun t =>
    match t.2 w with
    | none => []
    | some out => adaptTagger t.1 w out)).flatten

/-- All candidates for a document. -/
def allCandidates (taggers : List Tagger) (windows : List Window) :
    List RawSpanCandidate :=
  (windows.map (windowCandidates taggers)).flatten

/-- Sentence ids of windows on which every model failed — reported as
`uncovered_sentence` in the document audit output. -/
def uncoveredSentenceIds (taggers : List Tagger) (windows : List Window) : List Nat :=
  ((windows.filter (fun w => taggers.all (fun t => (t.2 w).isNone))).map
    (fun w => w.sentences.map Sentence.sentence_id)).flatten

/-! ## Ensemble Reconciler, Step 1: clustering -/

/-- Character length of a candidate's span. -/
def spanLen (c : RawSpanCandidate) : Nat := c.char_end - c.char_start

/-- Character overlap of two candidate spans. -/
def overlapChars (a b : RawSpanCandidate) : Nat :=
  min a.char_end b.char_end - max a.char_start b.char_start

/-- Pairwise overlap test: the two spans overlap by at least `num/den`
of the shorter span's length (the configured fraction, default 1/2). -/
def overlapB (num den : Nat) (a b : RawSpanCandidate) : Bool :=
  decide (num * min (spanLen a) (spanLen b) ≤ den * overlapChars a b)

/-- Does candidate `c` overlap some member of the cluster `cl`? -/
def touches (num den : Nat) (c : RawSpanCandidate)
    (cl : List RawSpanCandidate) : Bool :=
  cl.any (fun d => overlapB num den c d)

/-- Insert a candidate: merge every cluster it overlaps into one. -/
def insertCand (num den : Nat) (c : RawSpanCandidate)
    (clusters : List (List RawSpanCandidate)) : List (List RawSpanCandidate) :=
  (c :: (clusters.filter (fun cl => touches num den c cl)).flatten) ::
    clusters.filter (fun cl => !touches num den c cl)

/-- Modelled from the spec: Step 1 of the Ensemble Reconciler —
transitive-closure clustering of candidates by pairwise character
overlap. -/
def clusterize (num den : Nat) (cands : List RawSpanCandidate) :
    List (List RawSpanCandidate) :=
  cands.foldl (fun acc c => insertCand num den c acc) []

/-- A candidate appears somewhere in the cluster list. -/
def InClusters (clusters : List (List RawSpanCandidate))
    (x : RawSpanCandidate) : Prop :=
  ∃ cl ∈ clusters, x ∈ cl

/-- The cluster list is a family of pairwise-disjoint blocks. -/
def DisjointClusters (clusters : List (List RawSpanCandidate)) : Prop :=
  ∀ cl1 ∈ clusters, ∀ cl2 ∈ clusters,
    cl1 = cl2 ∨ ∀ x, x ∈ cl1 → x ∈ cl2 → False

/-! ### Clustering lemmas -/

theorem overlapB_symm (num den : Nat) (a b : RawSpanCandidate) :
    overlapB num den a b = overlapB num den b a := by
  simp only [overlapB, overlapChars, spanLen]
  rw [decide_eq_decide]
  rw [Nat.min_comm a.char_end b.char_end, Nat.max_comm a.char_start b.char_start,
    Nat.min_comm (a.char_end - a.char_start) (b.char_end - b.char_start)]

theorem mem_filter_or (p : List RawSpanCandidate → Bool)
    (l : List (List RawSpanCandidate)) (x : List RawSpanCandidate) (hx : x ∈ l) :
    x ∈ l.filter p ∨ x ∈ l.filter (fun a => !p a) := by
  by_cases h : p x = true <;> simp [List.mem_filter, hx, h]

theorem insertCand_inv (num den : Nat) (c : RawSpanCandidate)
    (clusters : List (List RawSpanCandidate)) (processed : List RawSpanCandidate)
    (hmem : ∀ x, InClusters clusters x ↔ x ∈ processed)
    (hdisj : DisjointClusters clusters)
    (hconn : ∀ a b, a ∈ processed → b ∈ processed → overlapB num den a b = true →
      ∃ cl ∈ clusters, a ∈ cl ∧ b ∈ cl)
    (hc : c ∉ processed) :
    (∀ x, InClusters (insertCand num den c clusters) x ↔ x ∈ c :: processed) ∧
    DisjointClusters (insertCand num den c clusters) ∧
    (∀ a b, a ∈ c :: processed → b ∈ c :: processed → overlapB num den a b = true →
      ∃ cl ∈ insertCand num den c clusters, a ∈ cl ∧ b ∈ cl) := by
  have hnotc : ∀ cl ∈ clusters, c ∉ cl := by
    intro cl hcl hxc
    exact hc ((hmem c).mp ⟨cl, hcl, hxc⟩)
  have hNEWmem : (c :: (clusters.filter (fun cl => touches num den c cl)).flatten) ∈
      insertCand num den c clusters := by
    rw [insertCand]; exact List.mem_cons_self _ _
  have hInNEW : ∀ y, y ∈ processed → overlapB num den c y = true →
      y ∈ c :: (clusters.filter (fun cl => touches num den c cl)).flatten := by
    intro y hy hcy
    obtain ⟨cl, hcl, hycl⟩ := (hmem y).mpr hy
    have htch : touches num den c cl = true := by
      rw [touches, List.any_eq_true]
      exact ⟨y, hycl, hcy⟩
    exact List.mem_cons_of_mem _
      (List.mem_flatten.mpr ⟨cl, List.mem_filter.mpr ⟨hcl, htch⟩, hycl⟩)
  refine ⟨?_, ?_, ?_⟩
  · intro x
    simp only [insertCand, InClusters, List.mem_cons]
    constructor
    · rintro ⟨cl, hcl, hx⟩
      rcases hcl with h | h
      · subst h
        rcases List.mem_cons.mp hx with h | h
        · exact Or.inl h
        · rcases List.mem_flatten.mp h with ⟨t, ht, hxt⟩
          exact Or.inr ((hmem x).mp ⟨t, (List.mem_filter.mp ht).1, hxt⟩)
      · exact Or.inr ((hmem x).mp ⟨cl, (List.mem_filter.mp h).1, hx⟩)
    · rintro (h | h)
      · subst h
        exact ⟨_, Or.inl rfl, List.mem_cons_self _ _⟩
      · obtain ⟨cl, hcl, hx⟩ := (hmem x).mpr h
        rcases mem_filter_or (fun cl => touches num den c cl) clusters cl hcl with hf | hf
        · exact ⟨_, Or.inl rfl,
            List.mem_cons_of_mem _ (List.mem_flatten.mpr ⟨cl, hf, hx⟩)⟩
        · exact ⟨cl, Or.inr hf, hx⟩
  · intro cl1 hcl1 cl2 hcl2
    simp only [insertCand, List.mem_cons] at hcl1 hcl2
    have hNR : ∀ r, r ∈ clusters.filter (fun cl => !touches num den c cl) →
        ∀ x, x ∈ c :: (clusters.filter (fun cl => touches num den c cl)).flatten →
          x ∈ r → False := by
      intro r hr x hxN hxr
      have hrcl := (List.mem_filter.mp hr).1
      have hrneg := (List.mem_filter.mp hr).2
      rcases List.mem_cons.mp hxN with h | h
      · subst h; exact hnotc r hrcl hxr
      · rcases List.mem_flatten.mp h with ⟨t, ht, hxt⟩
        have htcl := (List.mem_filter.mp ht).1
        have htpos := (List.mem_filter.mp ht).2
        have hne : t ≠ r := by
          intro he
          rw [he] at htpos
          simp [htpos] at hrneg
        rcases hdisj t htcl r hrcl with he | hd
        · exact hne he
        · exact hd x hxt hxr
    rcases hcl1 with h1 | h1 <;> rcases hcl2 with h2 | h2
    · left; rw [h1, h2]
    · right; subst h1; intro x hx1 hx2; exact (hNR cl2 h2 x hx1 hx2).elim
    · right; subst h2; intro x hx1 hx2; exact (hNR cl1 h1 x hx2 hx1).elim
    · exact hdisj cl1 (List.mem_filter.mp h1).1 cl2 (List.mem_filter.mp h2).1
  · intro a b ha hb hab
    rcases List.mem_cons.mp ha with ha1 | ha1
    · rcases List.mem_cons.mp hb with hb1 | hb1
      · exact ⟨_, hNEWmem, List.mem_cons.mpr (Or.inl ha1),
          List.mem_cons.mpr (Or.inl hb1)⟩
      · have hcb : overlapB num den c b = true := by rw [← ha1]; exact hab
        exact ⟨_, hNEWmem, List.mem_cons.mpr (Or.inl ha1), hInNEW b hb1 hcb⟩
    · rcases List.mem_cons.mp hb with hb1 | hb1
      · have hca : overlapB num den c a = true := by
          rw [← hb1, overlapB_symm]; exact hab
        exact ⟨_, hNEWmem, hInNEW a ha1 hca, List.mem_cons.mpr (Or.inl hb1)⟩
      · obtain ⟨cl, hcl, hacl, hbcl⟩ := hconn a b ha1 hb1 hab
        rcases mem_filter_or (fun cl => touches num den c cl) clusters cl hcl with hf | hf
        · exact ⟨_, hNEWmem,
            List.mem_cons_of_mem _ (List.mem_flatten.mpr ⟨cl, hf, hacl⟩),
            List.mem_cons_of_mem _ (List.mem_flatten.mpr ⟨cl, hf, hbcl⟩)⟩
        · exact ⟨cl, by rw [insertCand]; exact List.mem_cons_of_mem _ hf, hacl, hbcl⟩

theorem clusterize_go (num den : Nat) :
    ∀ (rest : List RawSpanCandidate) (clusters : List (List RawSpanCandidate))
      (processed : List RawSpanCandidate),
      (∀ x ∈ rest, x ∉ processed) → rest.Nodup →
      (∀ x, InClusters clusters x ↔ x ∈ processed) →
      DisjointClusters clusters →
      (∀ a b, a ∈ processed → b ∈ processed → overlapB num den a b = true →
        ∃ cl ∈ clusters, a ∈ cl ∧ b ∈ cl) →
      (∀ x, InClusters (rest.foldl (fun acc c => insertCand num den c acc) clusters) x ↔
        (x ∈ processed ∨ x ∈ rest)) ∧
      DisjointClusters (rest.foldl (fun acc c => insertCand num den c acc) clusters) ∧
      (∀ a b, (a ∈ processed ∨ a ∈ rest) → (b ∈ processed ∨ b ∈ rest) →
        overlapB num den a b = true →
        ∃ cl ∈ rest.foldl (fun acc c => insertCand num den c acc) clusters,
          a ∈ cl ∧ b ∈ cl) := by
  intro rest
  induction rest with
  | nil =>
    intro clusters processed _ _ hmem hdisj hconn
    refine ⟨?_, hdisj, ?_⟩
    · intro x; simpa using hmem x
    · intro a b ha hb hab
      simp only [List.not_mem_nil, or_false] at ha hb
      exact hconn a b ha hb hab
  | cons c rest ih =>
    intro clusters processed hfresh hnd hmem hdisj hconn
    obtain ⟨hmem1, hdisj1, hconn1⟩ :=
      insertCand_inv num den c clusters processed hmem hdisj hconn
        (hfresh c (List.mem_cons_self _ _))
    have hfresh1 : ∀ x ∈ rest, x ∉ c :: processed := by
      intro x hx hmem2
      rcases List.mem_cons.mp hmem2 with h | h
      · subst h; exact (List.nodup_cons.mp hnd).1 hx
      · exact hfresh x (List.mem_cons_of_mem _ hx) h
    obtain ⟨m2, d2, c2⟩ := ih (insertCand num den c clusters) (c :: processed)
      hfresh1 (List.nodup_cons.mp hnd).2 hmem1 hdisj1 hconn1
    simp only [List.foldl_cons]
    refine ⟨?_, d2, ?_⟩
    · intro x
      rw [m2 x]
      simp only [List.mem_cons]
      tauto
    · intro a b ha hb hab
      apply c2 a b ?_ ?_ hab
      · simp only [List.mem_cons] at ha ⊢; tauto
      · simp only [List.mem_cons] at hb ⊢; tauto

/-- The clustering of a duplicate-free candidate set is a partition that
connects every overlapping pair. -/
theorem clusterize_spec (num den : Nat) (cands : List RawSpanCandidate)
    (hnd : cands.Nodup) :
    (∀ x, InClusters (clusterize num den cands) x ↔ x ∈ cands) ∧
    DisjointClusters (clusterize num den cands) ∧
    (∀ a b, a ∈ cands → b ∈ cands → overlapB num den a b = true →
      ∃ cl ∈ clusterize num den cands, a ∈ cl ∧ b ∈ cl) := by
  obtain ⟨m, d, cn⟩ := clusterize_go num den cands [] []
    (fun x _ h => absurd h (List.not_mem_nil x)) hnd
    (by intro x; simp [InClusters])
    (by intro cl1 h; exact absurd h (List.not_mem_nil cl1))
    (by intro a b ha; exact absurd ha (List.not_mem_nil a))
  refine ⟨?_, d, ?_⟩
  · intro x; rw [clusterize]; rw [m x]; simp
  · intro a b ha hb hab
    rw [clusterize]
    exact cn a b (Or.inr ha) (Or.inr hb) hab

/-! ## Ensemble Reconciler, Steps 2–4: resolution and acceptance

To make every tie-break independent of input iteration order, the
reconciler first puts each cluster into a canonical order (a total,
antisymmetric lexicographic order on all candidate fields) and then
resolves label, boundary and status over that canonical order. -/

/-- Lexicographic comparison of equal-purpose numeric key lists. -/
def lexLE : List Nat → List Nat → Bool
  | [], _ => true
  | _ :: _, [] => false
  | a :: as, b :: bs => decide (a < b) || (decide (a = b) && lexLE as bs)

/-- Total numeric key of a candidate: every field participates, so the
induced order is antisymmetric. -/
def candKey (c : RawSpanCandidate) : List Nat :=
  [c.char_start, c.char_end, labelIdx c.label, c.model_id, c.confidence,
    c.window_id]

/-- The canonical total order on candidates. -/
def candLE (c d : RawSpanCandidate) : Prop :=
  lexLE (candKey c) (candKey d) = true

instance : DecidableRel candLE :=
  fun c d => inferInstanceAs (Decidable (lexLE (candKey c) (candKey d) = true))

/-- Canonical (sorted) presentation of a cluster. -/
def canonCluster (cl : List RawSpanCandidate) : List RawSpanCandidate :=
  List.insertionSort candLE cl

/-- Ensemble configuration: overlap fraction `overlap_num/overlap_den`,
per-model reliability weights, and the two single-model acceptance
thresholds (all weights/confidences on the permille scale). -/
structure EnsembleConfig where
  overlap_num : Nat
  overlap_den : Nat
  model_weights : List (ModelId × Nat)
  high_weight_threshold : Nat
  high_conf_threshold : Nat
deriving DecidableEq, Repr

/-- Reliability weight of a model (0 if unconfigured). -/
def weightOf (cfg : EnsembleConfig) (m : ModelId) : Nat :=
  match cfg.model_weights.lookup m with
  | some w => w
  | none => 0

/-- Status of a resolved cluster. -/
inductive ClusterStatus where
  | accepted
  | rejected_by_ensemble
  | flagged
deriving DecidableEq, Repr

/-- A resolved span cluster. -/
structure SpanCluster where
  char_start : Nat
  char_end : Nat
  label : EntityLabel
  confidence_avg : Nat
  voted_from : List ModelId
  status : ClusterStatus
deriving DecidableEq, Repr

/-- Weighted support of a label inside a cluster:
`Σ reliability-weight × confidence` over the candidates carrying it. -/
def labelScore (cfg : EnsembleConfig) (cl : List RawSpanCandidate)
    (l : EntityLabel) : Nat :=
  ((cl.filter (fun c => c.label == l)).map
    (fun c => weightOf cfg c.model_id * c.confidence)).sum

/-- Minimum of a list of naturals (0 for the empty list). -/
def natMinList : List Nat → Nat
  | [] => 0
  | [x] => x
  | x :: xs => min x (natMinList xs)

/-- Shortest span length among a label's candidates (label tie-break). -/
def labelMinLen (cl : List RawSpanCandidate) (l : EntityLabel) : Nat :=
  natMinList ((cl.filter (fun c => c.label == l)).map spanLen)

/-- Fold selecting the best label: replace the current best only on a
strictly higher score, or on an equal score with a strictly shorter span —
so on a full tie the earlier (lexicographically smaller) label stays. -/
def pickLabel (score : EntityLabel → Nat) (mlen : EntityLabel → Nat) :
    List EntityLabel → EntityLabel → EntityLabel
  | [], best => best
  | l :: ls, best =>
    pickLabel score mlen ls
      (if score best < score l ∨ (score best = score l ∧ mlen l < mlen best)
       then l else best)

/-- Step 2 — label resolution over the labels present in the cluster. -/
def winningLabel (cfg : EnsembleConfig) (cl : List RawSpanCandidate) :
    EntityLabel :=
  match allLabels.filter (fun l => cl.any (fun c => c.label == l)) with
  | [] => .Material
  | l :: ls => pickLabel (labelScore cfg cl) (labelMinLen cl) ls l

/-- Weighted support of one boundary hypothesis for the winning label. -/
def boundarySupport (cfg : EnsembleConfig) (cl : List RawSpanCandidate)
    (l : EntityLabel) (p : Nat × Nat) : Nat :=
  ((cl.filter (fun c =>
      c.label == l && c.char_start == p.1 && c.char_end == p.2)).map
    (fun c => weightOf cfg c.model_id * c.confidence)).sum

/-- Fold selecting the best boundary: highest weighted support, ties to
the shorter span, remaining ties to the earlier hypothesis in the
canonical order. -/
def pickPair (support : Nat × Nat → Nat) :
    List (Nat × Nat) → (Nat × Nat) → (Nat × Nat)
  | [], best => best
  | p :: ps, best =>
    pickPair support ps
      (if support best < support p ∨
          (support best = support p ∧ p.2 - p.1 < best.2 - best.1)
       then p else best)

/-- Step 3 — boundary resolution among candidates carrying the winner. -/
def winningBoundary (cfg : EnsembleConfig) (cl : List RawSpanCandidate)
    (l : EntityLabel) : Nat × Nat :=
  match ((cl.filter (fun c => c.label == l)).map
      (fun c => (c.char_start, c.char_end))).dedup with
  | [] => (0, 0)
  | p :: ps => pickPair (boundarySupport cfg cl l) ps p

/-- The distinct models supporting a cluster. -/
def distinctModels (cl : List RawSpanCandidate) : List ModelId :=
  (cl.map (fun c => c.model_id)).dedup

/-- Highest candidate confidence in a cluster. -/
def maxConf (cl : List RawSpanCandidate) : Nat :=
  (cl.map (fun c => c.confidence)).foldr max 0

/-- Step 4 — the acceptance gate: at least two distinct models, or a
single model above the reliability threshold with a candidate above the
confidence threshold. -/
def acceptGate (cfg : EnsembleConfig) (cl : List RawSpanCandidate) : Bool :=
  decide (2 ≤ (distinctModels cl).length) ||
    (match distinctModels cl with
     | [m] => decide (cfg.high_weight_threshold < weightOf cfg m) &&
         decide (cfg.high_conf_threshold < maxConf cl)
     | _ => false)

/-- Steps 2–4 over an already-canonical cluster. -/
def resolveSorted (cfg : EnsembleConfig) (cl : List RawSpanCandidate) :
    SpanCluster :=
  let l := winningLabel cfg cl
  let p := winningBoundary cfg cl l
  { char_start := p.1
    char_end := p.2
    label := l
    confidence_avg := (cl.map (fun c => c.confidence)).sum / cl.length
    voted_from := distinctModels cl
    status := if acceptGate cfg cl then .accepted else .rejected_by_ensemble }

/-- Modelled from the spec: Steps 2–4 of the Ensemble Reconciler.  The
cluster is first put into its canonical order, so the result never
depends on the iteration order of the candidate input. -/
def resolveCluster (cfg : EnsembleConfig) (cl : List RawSpanCandidate) :
    SpanCluster :=
  resolveSorted cfg (canonCluster cl)

/-- Modelled from the spec: the full Ensemble Reconciler — cluster, then
resolve every cluster (rejected clusters are retained for audit). -/
def reconcile (cfg : EnsembleConfig) (cands : List RawSpanCandidate) :
    List SpanCluster :=
  (clusterize cfg.overlap_num cfg.overlap_den cands).map (resolveCluster cfg)

/-! ### Canonical-order lemmas -/

theorem lexLE_iff (a b : Nat) (as bs : List Nat) :
    lexLE (a :: as) (b :: bs) = true ↔ a < b ∨ (a = b ∧ lexLE as bs = true) := by
  simp [lexLE]

theorem lexLE_total : ∀ x y : List Nat, lexLE x y = true ∨ lexLE y x = true := by
  intro x
  induction x with
  | nil => intro y; exact Or.inl rfl
  | cons a as ih =>
    intro y
    cases y with
    | nil => exact Or.inr rfl
    | cons b bs =>
      rw [lexLE_iff, lexLE_iff]
      rcases Nat.lt_trichotomy a b with h | h | h
      · exact Or.inl (Or.inl h)
      · rcases ih bs with h2 | h2
        · exact Or.inl (Or.inr ⟨h, h2⟩)
        · exact Or.inr (Or.inr ⟨h.symm, h2⟩)
      · exact Or.inr (Or.inl h)

theorem lexLE_trans : ∀ x y z : List Nat,
    lexLE x y = true → lexLE y z = true → lexLE x z = true := by
  intro x
  induction x with
  | nil => intro y z _ _; rfl
  | cons a as ih =>
    intro y z hxy hyz
    cases y with
    | nil => simp [lexLE] at hxy
    | cons b bs =>
      cases z with
      | nil => simp [lexLE] at hyz
      | cons c cs =>
        rw [lexLE_iff] at hxy hyz ⊢
        rcases hxy with h1 | ⟨h1, r1⟩ <;> rcases hyz with h2 | ⟨h2, r2⟩
        · exact Or.inl (by omega)
        · exact Or.inl (by omega)
        · exact Or.inl (by omega)
        · exact Or.inr ⟨by omega, ih bs cs r1 r2⟩

theorem lexLE_antisymm : ∀ x y : List Nat,
    lexLE x y = true → lexLE y x = true → x = y := by
  intro x
  induction x with
  | nil =>
    intro y _ hyx
    cases y with
    | nil => rfl
    | cons b bs => simp [lexLE] at hyx
  | cons a as ih =>
    intro y hxy hyx
    cases y with
    | nil => simp [lexLE] at hxy
    | cons b bs =>
      rw [lexLE_iff] at hxy hyx
      rcases hxy with h1 | ⟨h1, r1⟩ <;> rcases hyx with h2 | ⟨h2, r2⟩
      · omega
      · omega
      · omega
      · rw [h1, ih bs r1 r2]

theorem labelIdx_inj (l1 l2 : EntityLabel) (h : labelIdx l1 = labelIdx l2) :
    l1 = l2 := by
  cases l1 <;> cases l2 <;> simp [labelIdx] at h ⊢

theorem candKey_inj (c d : RawSpanCandidate) (h : candKey c = candKey d) :
    c = d := by
  cases c with
  | mk m l cs ce conf w =>
    cases d with
    | mk m2 l2 cs2 ce2 conf2 w2 =>
      simp only [candKey, List.cons.injEq, and_true] at h
      obtain ⟨h1, h2, h3, h4, h5, h6⟩ := h
      rw [h1, h2, h4, h5, h6, labelIdx_inj l l2 h3]

instance : IsTotal RawSpanCandidate candLE :=
  ⟨fun c d => lexLE_total (candKey c) (candKey d)⟩

instance : IsTrans RawSpanCandidate candLE :=
  ⟨fun c d e => lexLE_trans (candKey c) (candKey d) (candKey e)⟩

instance : IsAntisymm RawSpanCandidate candLE :=
  ⟨fun c d h1 h2 => candKey_inj c d (lexLE_antisymm (candKey c) (candKey d) h1 h2)⟩

/-- Permutation-equal clusters have identical canonical presentations. -/
theorem canonCluster_perm_eq (cl1 cl2 : List RawSpanCandidate)
    (h : cl1.Perm cl2) : canonCluster cl1 = canonCluster cl2 :=
  List.eq_of_perm_of_sorted
    ((List.perm_insertionSort candLE cl1).trans
      (h.trans (List.perm_insertionSort candLE cl2).symm))
    (List.sorted_insertionSort candLE cl1) (List.sorted_insertionSort candLE cl2)

theorem canonCluster_mem (cl : List RawSpanCandidate) (x : RawSpanCandidate) :
    x ∈ canonCluster cl ↔ x ∈ cl :=
  (List.perm_insertionSort candLE cl).mem_iff

/-! ### Acceptance-gate lemmas -/

theorem canonCluster_nil_iff (cl : List RawSpanCandidate) :
    canonCluster cl = [] ↔ cl = [] := by
  constructor
  · intro h
    have hp := List.perm_insertionSort candLE cl
    rw [canonCluster] at h
    rw [h] at hp
    exact (hp.symm).eq_nil
  · intro h; rw [h]; rfl

theorem mem_distinctModels (cl : List RawSpanCandidate) (m : ModelId) :
    m ∈ distinctModels cl ↔ ∃ c ∈ cl, c.model_id = m := by
  simp [distinctModels, List.mem_dedup, List.mem_map]

theorem maxConf_gt_iff (t : Nat) (cl : List RawSpanCandidate) :
    t < maxConf cl ↔ ∃ c ∈ cl, t < c.confidence := by
  induction cl with
  | nil => simp [maxConf]
  | cons c cs ih =>
    simp only [maxConf, List.map_cons, List.foldr_cons]
    rw [show ((cs.map fun c => c.confidence).foldr max 0) = maxConf cs from rfl]
    rw [lt_max_iff, ih]
    constructor
    · rintro (h | ⟨x, hx, hxt⟩)
      · exact ⟨c, List.mem_cons_self _ _, h⟩
      · exact ⟨x, List.mem_cons_of_mem _ hx, hxt⟩
    · rintro ⟨x, hx, hxt⟩
      rcases List.mem_cons.mp hx with h | h
      · exact Or.inl (h ▸ hxt)
      · exact Or.inr ⟨x, h, hxt⟩

theorem all_same_distinct (cl : List RawSpanCandidate) (m : ModelId) :
    cl ≠ [] → (∀ c ∈ cl, c.model_id = m) → distinctModels cl = [m] := by
  induction cl with
  | nil => intro h; exact absurd rfl h
  | cons c cs ih =>
    intro _ hall
    have hcm : c.model_id = m := hall c (List.mem_cons_self _ _)
    cases cs with
    | nil => simp [distinctModels, hcm]
    | cons c2 cs2 =>
      have hrest : distinctModels (c2 :: cs2) = [m] :=
        ih (by simp) (fun x hx => hall x (List.mem_cons_of_mem _ hx))
      have hmm : c.model_id ∈ (c2 :: cs2).map (fun c => c.model_id) := by
        rw [hcm]
        exact List.mem_map.mpr ⟨c2, List.mem_cons_self _ _,
          hall c2 (List.mem_cons_of_mem _ (List.mem_cons_self _ _))⟩
      rw [distinctModels, List.map_cons, List.dedup_cons_of_mem hmm]
      exact hrest

theorem two_distinct_iff (cl : List RawSpanCandidate) :
    2 ≤ (distinctModels cl).length ↔
      ∃ c1 ∈ cl, ∃ c2 ∈ cl, c1.model_id ≠ c2.model_id := by
  constructor
  · intro h2
    rcases hd : distinctModels cl with _ | ⟨m1, _ | ⟨m2, rest⟩⟩
    · rw [hd] at h2; simp at h2
    · rw [hd] at h2; simp at h2
    · have hnd : (distinctModels cl).Nodup := List.nodup_dedup _
      rw [hd] at hnd
      have hne : m1 ≠ m2 := by
        have hnm := (List.nodup_cons.mp hnd).1
        intro he
        exact hnm (he ▸ List.mem_cons_self m2 rest)
      have hm1 : ∃ c ∈ cl, c.model_id = m1 :=
        (mem_distinctModels cl m1).mp (hd ▸ List.mem_cons_self _ _)
      have hm2 : ∃ c ∈ cl, c.model_id = m2 :=
        (mem_distinctModels cl m2).mp
          (hd ▸ List.mem_cons_of_mem _ (List.mem_cons_self _ _))
      obtain ⟨c1, hc1, he1⟩ := hm1
      obtain ⟨c2, hc2, he2⟩ := hm2
      exact ⟨c1, hc1, c2, hc2, by rw [he1, he2]; exact hne⟩
  · rintro ⟨c1, hc1, c2, hc2, hne⟩
    have h1 : c1.model_id ∈ distinctModels cl :=
      (mem_distinctModels cl _).mpr ⟨c1, hc1, rfl⟩
    have h2 : c2.model_id ∈ distinctModels cl :=
      (mem_distinctModels cl _).mpr ⟨c2, hc2, rfl⟩
    by_contra hlt
    rcases hd : distinctModels cl with _ | ⟨m, _ | ⟨m2, rest⟩⟩
    · rw [hd] at h1; exact absurd h1 (List.not_mem_nil _)
    · rw [hd] at h1 h2
      simp only [List.mem_singleton] at h1 h2
      exact hne (h1.trans h2.symm)
    · rw [hd] at hlt; simp at hlt

/-- The acceptance gate, characterised over the raw (unsorted) cluster. -/
theorem acceptGate_iff (cfg : EnsembleConfig) (cl : List RawSpanCandidate) :
    acceptGate cfg (canonCluster cl) = true ↔
      (∃ c1 ∈ cl, ∃ c2 ∈ cl, c1.model_id ≠ c2.model_id) ∨
      (∃ m, (∀ c ∈ cl, c.model_id = m) ∧ cl ≠ [] ∧
        cfg.high_weight_threshold < weightOf cfg m ∧
        ∃ c ∈ cl, cfg.high_conf_threshold < c.confidence) := by
  have hmem := canonCluster_mem cl
  constructor
  · intro h
    simp only [acceptGate] at h
    rcases hd : distinctModels (canonCluster cl) with _ | ⟨m, _ | ⟨m2, rest⟩⟩
    · rw [hd] at h; simp at h
    · rw [hd] at h
      simp only [List.length_cons, List.length_nil, Bool.or_eq_true,
        Bool.and_eq_true, decide_eq_true_eq] at h
      rcases h with h | h
      · omega
      · right
        refine ⟨m, ?_, ?_, h.1, ?_⟩
        · intro c hc
          have hcm : c.model_id ∈ distinctModels (canonCluster cl) :=
            (mem_distinctModels _ _).mpr ⟨c, (hmem c).mpr hc, rfl⟩
          rw [hd] at hcm
          simpa using hcm
        · intro hnil
          rw [hnil] at hd
          simp [distinctModels, canonCluster, List.insertionSort] at hd
        · obtain ⟨c, hc, hcc⟩ := (maxConf_gt_iff _ _).mp h.2
          exact ⟨c, (hmem c).mp hc, hcc⟩
    · left
      obtain ⟨c1, hc1, c2, hc2, hne⟩ :=
        (two_distinct_iff (canonCluster cl)).mp (by rw [hd]; simp)
      exact ⟨c1, (hmem c1).mp hc1, c2, (hmem c2).mp hc2, hne⟩
  · intro h
    rcases h with ⟨c1, hc1, c2, hc2, hne⟩ | ⟨m, hall, hnil, hw, c0, hc0, hcf⟩
    · have h2 : 2 ≤ (distinctModels (canonCluster cl)).length :=
        (two_distinct_iff _).mpr ⟨c1, (hmem c1).mpr hc1, c2, (hmem c2).mpr hc2, hne⟩
      simp [acceptGate, h2]
    · have hcs : canonCluster cl ≠ [] := by
        intro h; exact hnil ((canonCluster_nil_iff cl).mp h)
      have hd : distinctModels (canonCluster cl) = [m] :=
        all_same_distinct _ m hcs (fun c hc => hall c ((hmem c).mp hc))
      have hmx : cfg.high_conf_threshold < maxConf (canonCluster cl) :=
        (maxConf_gt_iff _ _).mpr ⟨c0, (hmem c0).mpr hc0, hcf⟩
      simp [acceptGate, hd, hw, hmx]

theorem distinctModels_singleton (c : RawSpanCandidate) :
    distinctModels [c] = [c.model_id] := by
  rw [distinctModels, List.map_cons, List.map_nil,
    List.dedup_cons_of_not_mem (List.not_mem_nil _), List.dedup_nil]

/-! ## Span Normalizer -/

/-- The final output unit of the pipeline. -/
structure CanonicalSpan where
  label : EntityLabel
  text : Buffer
  char_start : Nat
  char_end : Nat
  voted_from : List ModelId
  confidence_avg : Nat
  lexicon_validated : Bool
deriving DecidableEq, Repr

instance : Inhabited CanonicalSpan :=
  ⟨⟨.Material, [], 0, 0, [], 0, false⟩⟩

/-- Build the canonical span of an accepted cluster.  The text is rebuilt
exclusively from the cleaned buffer at the resolved offsets (the offset
map being the only reconstruction path — token text is never
concatenated); offsets are clamped to the buffer. -/
def mkCanonical (buf : Buffer) (sc : SpanCluster) : CanonicalSpan :=
  { label := sc.label
    text := sliceL buf (min sc.char_start buf.length) (min sc.char_end buf.length)
    char_start := min sc.char_start buf.length
    char_end := min sc.char_end buf.length
    voted_from := sc.voted_from
    confidence_avg := sc.confidence_avg
    lexicon_validated := false }

/-- Modelled from the spec: the non-domain stopwords stripped from span
boundaries by the missing `normalize_span`. -/
def boundaryStopwords : List Buffer :=
  ["of", "at", "the", "was", "a", "an", "in", "to", "for", "and"].map
    String.toList

/-- Boundary punctuation/whitespace characters. -/
def isPunct (c : Char) : Bool :=
  c = ' ' || c = ',' || c = '.' || c = ';' || c = ':' || c = '(' || c = ')' ||
    c = '-'

/-- Number of characters to strip from the front of a span text: one
punctuation character, or a whole leading stopword. -/
def frontTrim (t : Buffer) : Nat :=
  match t with
  | [] => 0
  | c :: _ =>
    if isPunct c then 1
    else
      match boundaryStopwords.find? (fun w => (w ++ [' ']).isPrefixOf t) with
      | some w => w.length
      | none => 0

/-- Number of characters to strip from the back of a span text. -/
def rearTrim (t : Buffer) : Nat :=
  match t.reverse with
  | [] => 0
  | c :: _ =>
    if isPunct c then 1
    else
      match boundaryStopwords.find?
          (fun w => (w.reverse ++ [' ']).isPrefixOf t.reverse) with
      | some w => w.length
      | none => 0

/-- One boundary-trim step, re-measuring the char offsets; `none` when no
trim applies. -/
def trimOnce (sp : CanonicalSpan) : Option CanonicalSpan :=
  if 0 < frontTrim sp.text then
    some { sp with text := sp.text.drop (frontTrim sp.text),
                   char_start := sp.char_start + frontTrim sp.text }
  else if 0 < rearTrim sp.text then
    some { sp with text := sp.text.take (sp.text.length - rearTrim sp.text),
                   char_end := sp.char_end - rearTrim sp.text }
  else none

/-- Trim until no step applies (each step strips at least one character,
so the text length is sufficient fuel). -/
def trimAll : Nat → CanonicalSpan → CanonicalSpan
  | 0, sp => sp
  | n + 1, sp =>
    match trimOnce sp with
    | none => sp
    | some sp2 => trimAll n sp2

/-- Full boundary trimming of a span. -/
def trimSpan (sp : CanonicalSpan) : CanonicalSpan :=
  trimAll sp.text.length sp

/-- Modelled from the spec: the Lexicon/Pattern Store — canonical domain
surface forms per entity label (static data, consulted never mutated). -/
def LEXICON : List (EntityLabel × List Buffer) :=
  [(.Polymer, ["polyester", "polyethylene", "epoxy resin",
      "polylactic acid"].map String.toList),
    (.Property, ["glass transition temperature", "tensile strength",
      "viscosity"].map String.toList),
    (.Symbol, ["Tg", "E", "σ"].map String.toList),
    (.Unit, ["°C", "MPa", "kJ/mol"].map String.toList),
    (.Material, ["toluene", "carbon fiber"].map String.toList),
    (.Value, [])]

/-- Surface forms of a label in the lexicon. -/
def lexiconForms (l : EntityLabel) : List Buffer :=
  match LEXICON.find? (fun e => e.1 == l) with
  | some e => e.2
  | none => []

/-- Exact lexicon hit for the span's label. -/
def lexHit (sp : CanonicalSpan) : Bool :=
  (lexiconForms sp.label).contains sp.text

/-- Lexicon validation: a hit raises the confidence (to at least the
lexicon boost) and marks the span validated; text and boundary are
untouched (a miss only leaves the span unflagged, never rejects). -/
def validateLexicon (sp : CanonicalSpan) : CanonicalSpan :=
  if lexHit sp then
    { sp with lexicon_validated := true,
              confidence_avg := max sp.confidence_avg 900 }
  else sp

/-- Citation/figure marker detection. -/
def containsCitation (t : Buffer) : Bool :=
  t.any (fun c => c = '[')

/-- Modelled from the spec: the missing `normalize_span` — (a) trim
boundary stopwords/punctuation re-measuring offsets, (b) reject spans
carrying citation markers, (c) validate against the lexicon, (d) drop
spans shorter than the minimum character length. -/
def normalize_span (sp : CanonicalSpan) : Option CanonicalSpan :=
  if containsCitation (trimSpan sp).text then none
  else if (trimSpan sp).text.length < 2 then none
  else some (validateLexicon (trimSpan sp))

/-! ### Normalizer lemmas -/

theorem frontTrim_le (t : Buffer) : frontTrim t ≤ t.length := by
  cases t with
  | nil => exact Nat.le_refl 0
  | cons c rest =>
    rw [frontTrim]
    by_cases hp : isPunct c = true
    · rw [if_pos hp]
      simp
    · rw [if_neg hp]
      rcases hf : boundaryStopwords.find?
          (fun w => (w ++ [' ']).isPrefixOf (c :: rest)) with _ | w
      · exact Nat.zero_le _
      · show w.length ≤ (c :: rest).length
        have hpre := List.find?_some hf
        have hlen := (List.isPrefixOf_iff_prefix.mp hpre).length_le
        simp only [List.length_append, List.length_cons, List.length_nil] at hlen ⊢
        omega

theorem rearTrim_le (t : Buffer) : rearTrim t ≤ t.length := by
  rw [rearTrim]
  rcases hr : t.reverse with _ | ⟨c, rest⟩
  · exact Nat.zero_le _
  · have hlen2 : t.length = rest.length + 1 := by
      rw [← List.length_reverse t, hr, List.length_cons]
    show (if isPunct c = true then 1
          else match boundaryStopwords.find?
              (fun w => (w.reverse ++ [' ']).isPrefixOf (c :: rest)) with
            | some w => w.length
            | none => 0) ≤ t.length
    by_cases hp : isPunct c = true
    · rw [if_pos hp]
      omega
    · rw [if_neg hp]
      split
      next w hf =>
        have hpre := List.find?_some hf
        have hlenp := (List.isPrefixOf_iff_prefix.mp hpre).length_le
        simp only [List.length_append, List.length_cons, List.length_nil,
          List.length_reverse] at hlenp
        omega
      next =>
        exact Nat.zero_le _

theorem frontTrim_nil : frontTrim [] = 0 := rfl

theorem rearTrim_nil : rearTrim [] = 0 := rfl

theorem trimOnce_length (sp sp' : CanonicalSpan) (h : trimOnce sp = some sp') :
    sp'.text.length < sp.text.length := by
  have hne : sp.text ≠ [] := by
    intro he
    rw [trimOnce, he, frontTrim_nil, rearTrim_nil] at h
    simp at h
  have hpos : 0 < sp.text.length := List.length_pos.mpr hne
  rw [trimOnce] at h
  by_cases hf : 0 < frontTrim sp.text
  · rw [if_pos hf] at h
    cases h
    have := frontTrim_le sp.text
    simp only [List.length_drop]
    omega
  · rw [if_neg hf] at h
    by_cases hr : 0 < rearTrim sp.text
    · rw [if_pos hr] at h
      cases h
      have := rearTrim_le sp.text
      simp only [List.length_take]
      omega
    · rw [if_neg hr] at h
      simp at h

theorem trimOnce_none_iff (sp : CanonicalSpan) :
    trimOnce sp = none ↔ frontTrim sp.text = 0 ∧ rearTrim sp.text = 0 := by
  rw [trimOnce]
  by_cases hf : 0 < frontTrim sp.text
  · rw [if_pos hf]; simp; omega
  · rw [if_neg hf]
    by_cases hr : 0 < rearTrim sp.text
    · rw [if_pos hr]; simp; omega
    · rw [if_neg hr]; simp; omega

theorem trimAll_fix : ∀ (n : Nat) (sp : CanonicalSpan),
    sp.text.length ≤ n → trimOnce (trimAll n sp) = none := by
  intro n
  induction n with
  | zero =>
    intro sp h
    have htext : sp.text = [] := List.length_eq_zero.mp (Nat.le_zero.mp h)
    rw [trimAll, trimOnce_none_iff, htext, frontTrim_nil, rearTrim_nil]
    exact ⟨rfl, rfl⟩
  | succ n ih =>
    intro sp h
    rcases h2 : trimOnce sp with _ | sp2
    · rw [trimAll, h2]
      exact h2
    · rw [trimAll, h2]
      exact ih sp2 (by have := trimOnce_length sp sp2 h2; omega)

theorem trimSpan_fix (sp : CanonicalSpan) : trimOnce (trimSpan sp) = none :=
  trimAll_fix sp.text.length sp (Nat.le_refl _)

theorem trimSpan_of_none (sp : CanonicalSpan) (h : trimOnce sp = none) :
    trimSpan sp = sp := by
  rw [trimSpan]
  rcases hl : sp.text.length with _ | n
  · rfl
  · rw [trimAll, h]

theorem validateLexicon_fields (sp : CanonicalSpan) :
    (validateLexicon sp).text = sp.text ∧ (validateLexicon sp).label = sp.label ∧
    (validateLexicon sp).char_start = sp.char_start ∧
    (validateLexicon sp).char_end = sp.char_end := by
  rw [validateLexicon]
  by_cases h : lexHit sp = true
  · rw [if_pos h]; exact ⟨rfl, rfl, rfl, rfl⟩
  · rw [if_neg h]; exact ⟨rfl, rfl, rfl, rfl⟩

theorem validateLexicon_idem (sp : CanonicalSpan) :
    validateLexicon (validateLexicon sp) = validateLexicon sp := by
  by_cases h : lexHit sp = true
  · have h2 : lexHit (validateLexicon sp) = true := by
      rw [lexHit, (validateLexicon_fields sp).1, (validateLexicon_fields sp).2.1]
      exact h
    have h1 : validateLexicon sp =
        { sp with
          lexicon_validated := true
          confidence_avg := max sp.confidence_avg 900 } := by
      rw [validateLexicon, if_pos h]
    conv_lhs => rw [validateLexicon, if_pos h2]
    rw [h1]
    simp [max_assoc, max_self]
  · have h1 : validateLexicon sp = sp := by rw [validateLexicon, if_neg h]
    rw [h1, h1]

/-! ## Pipeline assembly -/

/-- The span-integrity invariant: the text is the exact slice of the
cleaned buffer at the recorded offsets, which stay inside the buffer. -/
def SpanInv (buf : Buffer) (sp : CanonicalSpan) : Prop :=
  sp.text = sliceL buf sp.char_start sp.char_end ∧ sp.char_end ≤ buf.length

theorem sliceL_length (buf : Buffer) (s e : Nat) (he : e ≤ buf.length) :
    (sliceL buf s e).length = e - s := by
  simp only [sliceL, List.length_take, List.length_drop]
  omega

theorem sliceL_drop (buf : Buffer) (s e f : Nat) :
    (sliceL buf s e).drop f = sliceL buf (s + f) e := by
  simp only [sliceL, List.drop_take, List.drop_drop]
  congr 1
  omega

theorem sliceL_take (buf : Buffer) (s e r : Nat) (he : e ≤ buf.length) :
    (sliceL buf s e).take ((sliceL buf s e).length - r) = sliceL buf s (e - r) := by
  rw [sliceL_length buf s e he]
  simp only [sliceL, List.take_take]
  congr 1
  omega

theorem mkCanonical_inv (buf : Buffer) (sc : SpanCluster) :
    SpanInv buf (mkCanonical buf sc) :=
  ⟨rfl, Nat.min_le_right _ _⟩

theorem trimOnce_inv (buf : Buffer) (sp sp' : CanonicalSpan)
    (h : trimOnce sp = some sp') (hinv : SpanInv buf sp) : SpanInv buf sp' := by
  obtain ⟨htext, hle⟩ := hinv
  rw [trimOnce] at h
  by_cases hf : 0 < frontTrim sp.text
  · rw [if_pos hf] at h
    have hinj := Option.some.inj h
    subst hinj
    refine ⟨?_, hle⟩
    show sp.text.drop (frontTrim sp.text) =
      sliceL buf (sp.char_start + frontTrim sp.text) sp.char_end
    rw [htext, sliceL_drop]
  · rw [if_neg hf] at h
    by_cases hr : 0 < rearTrim sp.text
    · rw [if_pos hr] at h
      have hinj := Option.some.inj h
      subst hinj
      refine ⟨?_, by show sp.char_end - rearTrim sp.text ≤ buf.length; omega⟩
      show sp.text.take (sp.text.length - rearTrim sp.text) =
        sliceL buf sp.char_start (sp.char_end - rearTrim sp.text)
      rw [htext, sliceL_take buf _ _ _ hle]
    · rw [if_neg hr] at h
      simp at h

theorem trimAll_inv (buf : Buffer) :
    ∀ (n : Nat) (sp : CanonicalSpan), SpanInv buf sp →
      SpanInv buf (trimAll n sp) := by
  intro n
  induction n with
  | zero => intro sp h; exact h
  | succ n ih =>
    intro sp h
    rcases h2 : trimOnce sp with _ | sp2
    · rw [trimAll, h2]; exact h
    · rw [trimAll, h2]; exact ih sp2 (trimOnce_inv buf sp sp2 h2 h)

theorem trimSpan_inv (buf : Buffer) (sp : CanonicalSpan) (h : SpanInv buf sp) :
    SpanInv buf (trimSpan sp) :=
  trimAll_inv buf sp.text.length sp h

theorem validateLexicon_inv (buf : Buffer) (sp : CanonicalSpan)
    (h : SpanInv buf sp) : SpanInv buf (validateLexicon sp) := by
  obtain ⟨h1, h2⟩ := h
  obtain ⟨ht, _, hs, he⟩ := validateLexicon_fields sp
  exact ⟨by rw [ht, hs, he, h1], by rw [he]; exact h2⟩

theorem normalize_span_inv (buf : Buffer) (sp sp' : CanonicalSpan)
    (hinv : SpanInv buf sp) (h : normalize_span sp = some sp') :
    SpanInv buf sp' := by
  rw [normalize_span] at h
  by_cases h1 : containsCitation (trimSpan sp).text = true
  · rw [if_pos h1] at h; simp at h
  · rw [if_neg h1] at h
    by_cases h2 : (trimSpan sp).text.length < 2
    · rw [if_pos h2] at h; simp at h
    · rw [if_neg h2] at h
      have hinj := Option.some.inj h
      subst hinj
      exact validateLexicon_inv buf _ (trimSpan_inv buf sp hinv)

/-- Per-document pipeline configuration. -/
structure PipelineConfig where
  window_capacity : Nat
  window_overlap : Nat
  min_sentence_chars : Nat
  ensemble : EnsembleConfig

/-- All outputs of one document run: the canonical spans, the audit
clusters (rejected/flagged, retained for review), the uncovered-sentence
report and the empty-document flag. -/
structure DocumentResult where
  spans : List CanonicalSpan
  audit_clusters : List SpanCluster
  uncovered_sentences : List Nat
  empty_document : Bool

/-- Modelled from the spec: the document-at-a-time pipeline — clean,
segment, filter, pack into windows, tag with every configured model,
reconcile, and normalize the accepted clusters into canonical spans.
A failure of every stage degrades to empty/reported output; the function
is total, so no input can crash the run. -/
def runDocument (cfg : PipelineConfig) (taggers : List Tagger) (doc : Buffer) :
    DocumentResult :=
  let buf := cleanText doc
  let sents := readySentences buf cfg.min_sentence_chars
  let windows := token_packing cfg.window_capacity cfg.window_overlap
    tokenLenOf sents
  let resolved := reconcile cfg.ensemble (allCandidates taggers windows)
  { spans := ((resolved.filter
      (fun sc => sc.status == ClusterStatus.accepted)).map
        (mkCanonical buf)).filterMap normalize_span
    audit_clusters := resolved.filter
      (fun sc => !(sc.status == ClusterStatus.accepted))
    uncovered_sentences := uncoveredSentenceIds taggers windows
    empty_document := sents.isEmpty }

theorem windowCandidates_all_none (taggers : List Tagger) (w : Window) :
    (∀ t ∈ taggers, t.2 w = none) → windowCandidates taggers w = [] := by
  induction taggers with
  | nil => intro _; rfl
  | cons t ts ih =>
    intro hall
    have h1 : t.2 w = none := hall t (List.mem_cons_self _ _)
    have h2 := ih (fun t2 ht2 => hall t2 (List.mem_cons_of_mem _ ht2))
    simp only [windowCandidates, List.map_cons, List.flatten_cons, h1,
      List.nil_append]
    exact h2

theorem uncovered_report (taggers : List Tagger) (windows : List Window)
    (w : Window) (hw : w ∈ windows) (hall : ∀ t ∈ taggers, t.2 w = none) :
    ∀ s ∈ w.sentences,
      s.sentence_id ∈ uncoveredSentenceIds taggers windows := by
  intro s hs
  rw [uncoveredSentenceIds]
  apply List.mem_flatten.mpr
  refine ⟨w.sentences.map Sentence.sentence_id, ?_,
    List.mem_map.mpr ⟨s, hs, rfl⟩⟩
  apply List.mem_map.mpr
  refine ⟨w, ?_, rfl⟩
  apply List.mem_filter.mpr
  refine ⟨hw, ?_⟩
  rw [List.all_eq_true]
  intro t ht
  rw [hall t ht]
  rfl

/-! # Claim theorems (first group) -/

/-- **C7**: the Span Normalizer is idempotent — applying `normalize_span`
to a span it has already produced performs no further trimming or
boundary change: its output set is a fixed point of the normalizer. -/
theorem span_normalizer_idempotent (sp sp' : CanonicalSpan)
    (h : normalize_span sp = some sp') : normalize_span sp' = some sp' := by
  rw [normalize_span] at h
  by_cases hcit : containsCitation (trimSpan sp).text = true
  · rw [if_pos hcit] at h; exact absurd h (by simp)
  · rw [if_neg hcit] at h
    by_cases hlen : (trimSpan sp).text.length < 2
    · rw [if_pos hlen] at h; exact absurd h (by simp)
    · rw [if_neg hlen] at h
      have hv : validateLexicon (trimSpan sp) = sp' := Option.some.inj h
      have htext : sp'.text = (trimSpan sp).text := by
        rw [← hv]; exact (validateLexicon_fields (trimSpan sp)).1
      have hnone' : trimOnce sp' = none := by
        rw [trimOnce_none_iff, htext]
        have hfix := trimSpan_fix sp
        rw [trimOnce_none_iff] at hfix
        exact hfix
      have hts : trimSpan sp' = sp' := trimSpan_of_none sp' hnone'
      rw [normalize_span, hts, htext, if_neg hcit, if_neg hlen]
      exact congrArg some (by rw [← hv, validateLexicon_idem])

/-- A span with boundary stopwords on both sides, as the normalizer
receives it. -/
def demoNormIn : CanonicalSpan :=
  ⟨.Polymer, "the polyester was".toList, 100, 117, [0, 1], 850, false⟩

/-- The normalizer's output on `demoNormIn`: trimmed to the bare lexicon
form, confidence boosted, validated. -/
def demoNormOut : CanonicalSpan :=
  ⟨.Polymer, "polyester".toList, 104, 113, [0, 1], 900, true⟩

/-- Witness for **C7**: a concrete normalization and its fixed point. -/
theorem span_normalizer_idempotent_witness :
    normalize_span demoNormIn = some demoNormOut ∧
    normalize_span demoNormOut = some demoNormOut :=
  ⟨by decide, span_normalizer_idempotent demoNormIn demoNormOut (by decide)⟩

/-- **C3**: clustering is the transitive closure of the pairwise
character-overlap relation — if A overlaps B by at least the configured
fraction of the shorter span's length and B so overlaps C, then A, B and
C end up in the same cluster, even when A and C alone do not meet the
threshold. -/
theorem cluster_transitive_closure (num den : Nat)
    (cands : List RawSpanCandidate) (hnd : cands.Nodup)
    (a b c : RawSpanCandidate) (ha : a ∈ cands) (hb : b ∈ cands)
    (hc : c ∈ cands) (hab : overlapB num den a b = true)
    (hbc : overlapB num den b c = true) :
    ∃ cl ∈ clusterize num den cands, a ∈ cl ∧ b ∈ cl ∧ c ∈ cl := by
  obtain ⟨_, hdisj, hconn⟩ := clusterize_spec num den cands hnd
  obtain ⟨cl1, hcl1, ha1, hb1⟩ := hconn a b ha hb hab
  obtain ⟨cl2, hcl2, hb2, hc2⟩ := hconn b c hb hc hbc
  rcases hdisj cl1 hcl1 cl2 hcl2 with he | hd
  · exact ⟨cl1, hcl1, ha1, hb1, by rw [he]; exact hc2⟩
  · exact ((hd b hb1 hb2).elim)

/-- Three candidates in a chain: the first two overlap by half the
shorter span, the last two likewise, but the outer pair does not overlap
at all. -/
def demoChainCands : List RawSpanCandidate :=
  [⟨0, .Polymer, 0, 10, 500, 0⟩, ⟨1, .Polymer, 5, 15, 500, 0⟩,
    ⟨2, .Polymer, 10, 20, 500, 0⟩]

/-- Witness for **C3** on the concrete A–B–C chain. -/
theorem cluster_transitive_closure_witness :
    ∃ cl ∈ clusterize 1 2 demoChainCands,
      (⟨0, .Polymer, 0, 10, 500, 0⟩ : RawSpanCandidate) ∈ cl ∧
      (⟨1, .Polymer, 5, 15, 500, 0⟩ : RawSpanCandidate) ∈ cl ∧
      (⟨2, .Polymer, 10, 20, 500, 0⟩ : RawSpanCandidate) ∈ cl :=
  cluster_transitive_closure 1 2 demoChainCands (by decide) _ _ _
    (by decide) (by decide) (by decide) (by decide) (by decide)

/-- **C4**: reconciliation is deterministic — cluster resolution is a
pure function of the candidate *set*: any two presentation orders of the
same candidates resolve to the identical `SpanCluster`, so no tie-break
depends on unordered iteration. -/
theorem reconciliation_deterministic (cfg : EnsembleConfig)
    (cl1 cl2 : List RawSpanCandidate) (h : cl1.Perm cl2) :
    resolveCluster cfg cl1 = resolveCluster cfg cl2 := by
  unfold resolveCluster
  rw [canonCluster_perm_eq cl1 cl2 h]

/-- Witness for **C4**: the same two candidates in both orders. -/
theorem reconciliation_deterministic_witness :
    resolveCluster ⟨1, 2, [(0, 800), (1, 900)], 850, 700⟩
        [⟨0, .Polymer, 0, 9, 900, 0⟩, ⟨1, .Polymer, 0, 9, 800, 1⟩] =
      resolveCluster ⟨1, 2, [(0, 800), (1, 900)], 850, 700⟩
        [⟨1, .Polymer, 0, 9, 800, 1⟩, ⟨0, .Polymer, 0, 9, 900, 0⟩] :=
  reconciliation_deterministic _ _ _ (by decide)

/-- **C5**: the acceptance gate — a cluster's status is `accepted` iff it
is supported by two distinct models, or by a single model above the
reliability threshold with a candidate above the confidence threshold; a
cluster that is exactly one vote from a low-weight model is
`rejected_by_ensemble`; a cluster with two distinct models of positive
confidence is `accepted` or `flagged` (never silently dropped), and every
cluster of the clustering appears in the reconciler's output. -/
theorem ensemble_acceptance_gate (cfg : EnsembleConfig)
    (cl : List RawSpanCandidate) :
    ((resolveCluster cfg cl).status = ClusterStatus.accepted ↔
      (∃ c1 ∈ cl, ∃ c2 ∈ cl, c1.model_id ≠ c2.model_id) ∨
      (∃ m, (∀ c ∈ cl, c.model_id = m) ∧ cl ≠ [] ∧
        cfg.high_weight_threshold < weightOf cfg m ∧
        ∃ c ∈ cl, cfg.high_conf_threshold < c.confidence)) ∧
    (∀ c, cl = [c] → weightOf cfg c.model_id ≤ cfg.high_weight_threshold →
      (resolveCluster cfg cl).status = ClusterStatus.rejected_by_ensemble) ∧
    (∀ c1 ∈ cl, ∀ c2 ∈ cl, c1.model_id ≠ c2.model_id → 0 < c1.confidence →
      0 < c2.confidence →
      ((resolveCluster cfg cl).status = ClusterStatus.accepted ∨
        (resolveCluster cfg cl).status = ClusterStatus.flagged)) ∧
    (∀ cands, cl ∈ clusterize cfg.overlap_num cfg.overlap_den cands →
      resolveCluster cfg cl ∈ reconcile cfg cands) := by
  have hstat : (resolveCluster cfg cl).status =
      (if acceptGate cfg (canonCluster cl) then ClusterStatus.accepted
       else ClusterStatus.rejected_by_ensemble) := rfl
  have hiff : (resolveCluster cfg cl).status = ClusterStatus.accepted ↔
      acceptGate cfg (canonCluster cl) = true := by
    rw [hstat]
    by_cases h : acceptGate cfg (canonCluster cl) <;> simp [h]
  refine ⟨hiff.trans (acceptGate_iff cfg cl), ?_, ?_, ?_⟩
  · intro c hcl hw
    subst hcl
    have hcan : canonCluster [c] = [c] := rfl
    have hg : acceptGate cfg [c] = false := by
      simp only [acceptGate, distinctModels_singleton]
      simp [Nat.not_lt.mpr hw]
    rw [hstat, hcan, hg]
    simp
  · intro c1 h1 c2 h2 hne _ _
    exact Or.inl ((hiff.trans (acceptGate_iff cfg cl)).mpr
      (Or.inl ⟨c1, h1, c2, h2, hne⟩))
  · intro cands hmemc
    exact List.mem_map.mpr ⟨cl, hmemc, rfl⟩

/-- Witness for **C5**: the spec's scenario — a single-model candidate
with confidence 0.95 from a model configured below the high-confidence
reliability threshold is `rejected_by_ensemble`. -/
theorem ensemble_acceptance_gate_witness :
    (resolveCluster ⟨1, 2, [(0, 800), (1, 900)], 850, 700⟩
        [⟨0, .Polymer, 0, 9, 950, 0⟩]).status =
      ClusterStatus.rejected_by_ensemble :=
  (ensemble_acceptance_gate ⟨1, 2, [(0, 800), (1, 900)], 850, 700⟩
      [⟨0, .Polymer, 0, 9, 950, 0⟩]).2.1
    ⟨0, .Polymer, 0, 9, 950, 0⟩ rfl (by decide)

/-- **C6**: every `Sentence` record produced over the cleaned source buffer
satisfies `char_end - char_start == len(text)`, and its recorded offsets
index the cleaned buffer exactly — all length-changing cleaning
transformations (`cleanText`) are applied before `segmentSentences`
assigns offsets, never after. -/
theorem sentence_offset_invariant (doc : Buffer) (s : Sentence)
    (hs : s ∈ segmentSentences (cleanText doc)) :
    s.char_end - s.char_start = s.text.length ∧
    sliceL (cleanText doc) s.char_start s.char_end = s.text :=
  segmentAux_spec (cleanText doc) (cleanText doc) 0 [] 0 0 rfl
    (by simp [sliceL]) rfl s hs

/-- A concrete document on which the segmenter's offset invariant is
checked end to end. -/
def demoDoc : Buffer := "Tg is 9. PLA  melts.".toList

/-- Witness for **C6** at a concrete document and sentence. -/
theorem sentence_offset_invariant_witness :
    (⟨"Tg is 9.".toList, 0, 8, 0⟩ : Sentence).char_end -
        (⟨"Tg is 9.".toList, 0, 8, 0⟩ : Sentence).char_start =
      (⟨"Tg is 9.".toList, 0, 8, 0⟩ : Sentence).text.length ∧
    sliceL (cleanText demoDoc) 0 8 = "Tg is 9.".toList :=
  sentence_offset_invariant demoDoc ⟨"Tg is 9.".toList, 0, 8, 0⟩ (by decide)

/-- **C2**: the Window Packer places every sentence fully inside the
sentence list of a single window — concatenating the owned sentence lists
of all windows, in order, gives back exactly the input sentence list, so
no sentence is ever split across windows or truncated — and a sentence
whose token length alone exceeds the window capacity is emitted as its own
oversized, flagged window. -/
theorem window_packer_no_split (cap k : Nat) (tl : Sentence → Nat)
    (sents : List Sentence) :
    ((token_packing cap k tl sents).map Window.sentences).flatten = sents ∧
    ∀ s ∈ sents, cap < tl s →
      ∃ w ∈ token_packing cap k tl sents,
        w.sentences = [s] ∧ w.oversized = true := by
  constructor
  · rw [token_packing, mkWindows_sentences]
    simpa using packGroups_join cap tl sents [] 0
  · intro s hs hbig
    exact mkWindows_oversized k _ 0 [] s (packGroups_oversized cap tl sents [] 0 s hs hbig)

/-- Demo sentences for the packer: the middle one alone exceeds the
capacity used in the witness. -/
def demoSents : List Sentence :=
  [⟨"ab".toList, 0, 2, 0⟩, ⟨"abcdef".toList, 2, 8, 1⟩, ⟨"cd".toList, 8, 10, 2⟩]

/-- Witness for **C2** at a concrete sentence list and capacity. -/
theorem window_packer_no_split_witness :
    ((token_packing 3 1 (fun s => s.text.length) demoSents).map
        Window.sentences).flatten = demoSents ∧
    ∃ w ∈ token_packing 3 1 (fun s => s.text.length) demoSents,
      w.sentences = [⟨"abcdef".toList, 2, 8, 1⟩] ∧ w.oversized = true :=
  ⟨(window_packer_no_split 3 1 (fun s => s.text.length) demoSents).1,
    (window_packer_no_split 3 1 (fun s => s.text.length) demoSents).2
      ⟨"abcdef".toList, 2, 8, 1⟩ (by decide) (by decide)⟩

/-- **C1**: the offset round-trip — for every `CanonicalSpan` emitted by
the pipeline for any document, the substring of the cleaned source buffer
between the span's `char_start` and `char_end` equals the span's `text`
field exactly (span text is only ever rebuilt through offsets, never by
concatenating tokens). -/
theorem offset_roundtrip (cfg : PipelineConfig) (taggers : List Tagger)
    (doc : Buffer) (sp : CanonicalSpan)
    (h : sp ∈ (runDocument cfg taggers doc).spans) :
    sp.text = sliceL (cleanText doc) sp.char_start sp.char_end := by
  obtain ⟨c, hc, hnorm⟩ := List.mem_filterMap.mp h
  obtain ⟨sc, _, hc2⟩ := List.mem_map.mp hc
  have hinvc : SpanInv (cleanText doc) c := by
    rw [← hc2]
    exact mkCanonical_inv (cleanText doc) sc
  exact (normalize_span_inv (cleanText doc) c sp hinvc hnorm).1

/-- A demo document for the full pipeline. -/
def demoPipeDoc : Buffer := "Polyester melts.".toList

/-- Demo pipeline configuration (overlap fraction 1/2, two configured
models, single-model thresholds 850/700 permille). -/
def demoPipeCfg : PipelineConfig :=
  ⟨10, 1, 3, ⟨1, 2, [(0, 800), (1, 900)], 850, 700⟩⟩

/-- Two demo taggers that each label the first window token `Polymer`. -/
def demoTaggers : List Tagger :=
  [(⟨0, 800⟩, fun _ => some [(some .Polymer, 900), (none, 500)]),
    (⟨1, 900⟩, fun _ => some [(some .Polymer, 900), (none, 500)])]

/-- The span the demo pipeline emits. -/
def demoPipeSpan : CanonicalSpan :=
  ⟨.Polymer, "Polyester".toList, 0, 9, [0, 1], 900, false⟩

/-- Witness for **C1**: the round-trip property at a concrete end-to-end
pipeline run. -/
theorem offset_roundtrip_witness :
    demoPipeSpan.text =
      sliceL (cleanText demoPipeDoc) demoPipeSpan.char_start
        demoPipeSpan.char_end :=
  offset_roundtrip demoPipeCfg demoTaggers demoPipeDoc demoPipeSpan (by decide)

/-- **C8**: tagger failure degrades gracefully — a model returning no
output for a window contributes no votes there while the remaining
models' candidates are unchanged; a window on which every model failed
contributes no candidates at all and its sentences are reported as
`uncovered_sentence` in the audit output (the pipeline is a total
function, so the run never fails). -/
theorem tagger_failure_graceful :
    (∀ (pre post : List Tagger) (t : Tagger) (w : Window), t.2 w = none →
      windowCandidates (pre ++ t :: post) w = windowCandidates (pre ++ post) w) ∧
    (∀ (taggers : List Tagger) (windows : List Window) (w : Window),
      (∀ t ∈ taggers, t.2 w = none) →
      windowCandidates taggers w = [] ∧
      (w ∈ windows → ∀ s ∈ w.sentences,
        s.sentence_id ∈ uncoveredSentenceIds taggers windows)) := by
  constructor
  · intro pre post t w ht
    simp [windowCandidates, List.map_append, List.flatten_append, ht]
  · intro taggers windows w hall
    exact ⟨windowCandidates_all_none taggers w hall,
      fun hw => uncovered_report taggers windows w hw hall⟩

/-- A tagger that always fails (`TaggerInvocationError` on every window). -/
def demoFailTagger : Tagger := (⟨0, 800⟩, fun _ => none)

/-- A tagger that always answers. -/
def demoOkTagger : Tagger := (⟨1, 900⟩, fun _ => some [(some .Polymer, 900)])

/-- A window owning one sentence, for the failure demos. -/
def demoFailWindow : Window := ⟨0, [⟨"ab".toList, 0, 2, 7⟩], [], false⟩

/-- Witness for **C8** at concrete taggers and a concrete window. -/
theorem tagger_failure_graceful_witness :
    windowCandidates [demoFailTagger, demoOkTagger] demoFailWindow =
      windowCandidates [demoOkTagger] demoFailWindow ∧
    windowCandidates [demoFailTagger] demoFailWindow = [] ∧
    (7 : Nat) ∈ uncoveredSentenceIds [demoFailTagger] [demoFailWindow] :=
  ⟨tagger_failure_graceful.1 [] [demoOkTagger] demoFailTagger demoFailWindow rfl,
    (tagger_failure_graceful.2 [demoFailTagger] [demoFailWindow] demoFailWindow
      (by intro t ht; simp only [List.mem_singleton] at ht; subst ht; rfl)).1,
    (tagger_failure_graceful.2 [demoFailTagger] [demoFailWindow] demoFailWindow
      (by intro t ht; simp only [List.mem_singleton] at ht; subst ht; rfl)).2
      (List.mem_singleton.mpr rfl) ⟨"ab".toList, 0, 2, 7⟩
      (List.mem_singleton.mpr rfl)⟩

/-- **C9**: a document with zero surviving sentences yields an empty
window list from the Window Packer and an empty canonical-span set from
the pipeline, with the condition reported via the `empty_document` flag —
the run is a total function, so no exception is possible. -/
theorem empty_document_graceful (cfg : PipelineConfig) (taggers : List Tagger)
    (doc : Buffer)
    (h : readySentences (cleanText doc) cfg.min_sentence_chars = []) :
    token_packing cfg.window_capacity cfg.window_overlap tokenLenOf
      (readySentences (cleanText doc) cfg.min_sentence_chars) = [] ∧
    (runDocument cfg taggers doc).spans = [] ∧
    (runDocument cfg taggers doc).empty_document = true := by
  refine ⟨by rw [h]; rfl, ?_, ?_⟩
  · show (((reconcile cfg.ensemble (allCandidates taggers
        (token_packing cfg.window_capacity cfg.window_overlap tokenLenOf
          (readySentences (cleanText doc) cfg.min_sentence_chars)))).filter
        (fun sc => sc.status == ClusterStatus.accepted)).map
        (mkCanonical (cleanText doc))).filterMap normalize_span = []
    rw [h]
    rfl
  · show (readySentences (cleanText doc) cfg.min_sentence_chars).isEmpty = true
    rw [h]
    rfl

/-- Witness for **C9** on the empty document. -/
theorem empty_document_graceful_witness :
    token_packing demoPipeCfg.window_capacity demoPipeCfg.window_overlap
      tokenLenOf
      (readySentences (cleanText []) demoPipeCfg.min_sentence_chars) = [] ∧
    (runDocument demoPipeCfg demoTaggers []).spans = [] ∧
    (runDocument demoPipeCfg demoTaggers []).empty_document = true :=
  empty_document_graceful demoPipeCfg demoTaggers [] (by decide)

/-! ## Storage setup (`SetupService`)

Modelled from the spec: the storage backend is out of the pipeline core
and reached only through setup/save operations; `SetupService.ensure_buckets`
and `SetupService.ensure_collections` (missing `setup_service.py`) create
each required resource only when it is absent, reporting
"already exists" otherwise — exactly the behaviour the notebook driver
logs. -/

/-- The storage schema: which buckets and collections exist. -/
structure StorageState where
  buckets : List String
  collections : List String
deriving DecidableEq, Repr

/-- The buckets the setup service guarantees (from the notebook log). -/
def requiredBuckets : List String :=
  ["bucket_models", "bucket_tei_xml", "bucket_sentences",
    "bucket_token_windows", "bucket_system_logs", "bucket_datasets_training",
    "bucket_datasets_testing", "bucket_exports"]

/-- The collections the setup service guarantees. -/
def requiredCollections : List String :=
  ["metadata", "extractions", "system_logs"]

/-- Ensure one resource: create it only when missing. -/
def ensureResource (st : List String) (rid : String) : List String × String :=
  if rid ∈ st then (st, "already exists") else (st ++ [rid], "created")

/-- Ensure a list of resources, reporting one message per resource. -/
def ensureAll : List String → List String → List String × List String
  | st, [] => (st, [])
  | st, rid :: rids =>
    let r1 := ensureResource st rid
    let r2 := ensureAll r1.1 rids
    (r2.1, r1.2 :: r2.2)

/-- Modelled from the spec: `SetupService.ensure_buckets`. -/
def ensure_buckets (st : StorageState) : StorageState × List String :=
  ({ st with buckets := (ensureAll st.buckets requiredBuckets).1 },
    (ensureAll st.buckets requiredBuckets).2)

/-- Modelled from the spec: `SetupService.ensure_collections`. -/
def ensure_collections (st : StorageState) : StorageState × List String :=
  ({ st with collections := (ensureAll st.collections requiredCollections).1 },
    (ensureAll st.collections requiredCollections).2)

/-! ### Setup lemmas -/

theorem ensureAll_all_present :
    ∀ (rids st : List String), (∀ r ∈ rids, r ∈ st) →
      ensureAll st rids = (st, rids.map (fun _ => "already exists")) := by
  intro rids
  induction rids with
  | nil => intro st _; rfl
  | cons r rs ih =>
    intro st hall
    have h1 : r ∈ st := hall r (List.mem_cons_self _ _)
    simp only [ensureAll, ensureResource, if_pos h1]
    rw [ih st (fun x hx => hall x (List.mem_cons_of_mem _ hx))]
    rfl

theorem ensureAll_mono :
    ∀ (rids st : List String) (x : String), x ∈ st →
      x ∈ (ensureAll st rids).1 := by
  intro rids
  induction rids with
  | nil => intro st x hx; exact hx
  | cons r rs ih =>
    intro st x hx
    simp only [ensureAll]
    apply ih
    rw [ensureResource]
    by_cases h : r ∈ st
    · rw [if_pos h]; exact hx
    · rw [if_neg h]; exact List.mem_append_left _ hx

theorem ensureAll_covers :
    ∀ (rids st : List String) (r : String), r ∈ rids →
      r ∈ (ensureAll st rids).1 := by
  intro rids
  induction rids with
  | nil => intro st r hr; exact absurd hr (List.not_mem_nil r)
  | cons r2 rs ih =>
    intro st r hr
    rcases List.mem_cons.mp hr with h | h
    · subst h
      simp only [ensureAll]
      apply ensureAll_mono
      rw [ensureResource]
      by_cases h2 : r ∈ st
      · rw [if_pos h2]; exact h2
      · rw [if_neg h2]
        exact List.mem_append_right _ (List.mem_singleton.mpr rfl)
    · simp only [ensureAll]
      exact ih _ r h

/-- **C10**: storage setup is idempotent — when all required buckets and
collections already exist, `ensure_buckets`/`ensure_collections` leave
the schema unchanged and report "already exists" for every resource; in
particular a second run right after a first never fails and recreates
nothing. -/
theorem ensure_buckets_fst (st : StorageState) :
    (ensure_buckets st).1 =
      { st with buckets := (ensureAll st.buckets requiredBuckets).1 } := rfl

theorem ensure_buckets_fst_buckets (st : StorageState) :
    (ensure_buckets st).1.buckets = (ensureAll st.buckets requiredBuckets).1 := by
  rw [ensure_buckets_fst]

theorem ensure_collections_fst (st : StorageState) :
    (ensure_collections st).1 =
      { st with
        collections := (ensureAll st.collections requiredCollections).1 } := rfl

theorem ensure_collections_fst_collections (st : StorageState) :
    (ensure_collections st).1.collections =
      (ensureAll st.collections requiredCollections).1 := by
  rw [ensure_collections_fst]

theorem setup_idempotent (st : StorageState) :
    ((∀ b ∈ requiredBuckets, b ∈ st.buckets) →
      ensure_buckets st =
        (st, requiredBuckets.map (fun _ => "already exists"))) ∧
    ((∀ c ∈ requiredCollections, c ∈ st.collections) →
      ensure_collections st =
        (st, requiredCollections.map (fun _ => "already exists"))) ∧
    ensure_buckets (ensure_buckets st).1 =
      ((ensure_buckets st).1, requiredBuckets.map (fun _ => "already exists")) ∧
    ensure_collections (ensure_collections st).1 =
      ((ensure_collections st).1,
        requiredCollections.map (fun _ => "already exists")) := by
  have hb : ∀ s : StorageState, (∀ b ∈ requiredBuckets, b ∈ s.buckets) →
      ensure_buckets s = (s, requiredBuckets.map (fun _ => "already exists")) := by
    intro s hall
    rw [ensure_buckets, ensureAll_all_present requiredBuckets s.buckets hall]
  have hc : ∀ s : StorageState, (∀ c ∈ requiredCollections, c ∈ s.collections) →
      ensure_collections s =
        (s, requiredCollections.map (fun _ => "already exists")) := by
    intro s hall
    rw [ensure_collections,
      ensureAll_all_present requiredCollections s.collections hall]
  refine ⟨hb st, hc st, ?_, ?_⟩
  · have hcov : ∀ b ∈ requiredBuckets, b ∈ (ensure_buckets st).1.buckets := by
      rw [ensure_buckets_fst_buckets]
      exact fun b hbm => ensureAll_covers requiredBuckets st.buckets b hbm
    exact hb (ensure_buckets st).1 hcov
  · have hcov : ∀ c ∈ requiredCollections,
        c ∈ (ensure_collections st).1.collections := by
      rw [ensure_collections_fst_collections]
      exact fun c hcm => ensureAll_covers requiredCollections st.collections c hcm
    exact hc (ensure_collections st).1 hcov

/-- Witness for **C10**: running setup on a fully-provisioned schema
changes nothing and reports "already exists" throughout. -/
theorem setup_idempotent_witness :
    ensure_buckets ⟨requiredBuckets, requiredCollections⟩ =
      (⟨requiredBuckets, requiredCollections⟩,
        requiredBuckets.map (fun _ => "already exists")) ∧
    ensure_collections ⟨requiredBuckets, requiredCollections⟩ =
      (⟨requiredBuckets, requiredCollections⟩,
        requiredCollections.map (fun _ => "already exists")) :=
  ⟨(setup_idempotent ⟨requiredBuckets, requiredCollections⟩).1
      (fun _ hb => hb),
    (setup_idempotent ⟨requiredBuckets, requiredCollections⟩).2.1
      (fun _ hc => hc)⟩

end PolymerNLP
